import Mathlib

/-!
Verification development for the common-object-management-service repository.

Shallow embedding of:
- src/app/src/middleware/authorization.js (checkAppMode, hasPermission)
- src/app/src/services/tag.js (replaceTags, associateTags, dissociateTags,
  pruneOrphanedTags, createTags)
- src/app/src/services/metadata.js (associateMetadata, pruneOrphanedMetadata,
  createMetadata)

The relational store is modelled as in-memory lists of records; JavaScript
value semantics (truthiness, strict equality across runtime types, property
access) are modelled explicitly where the source depends on them.
-/

namespace Coms

/-! ## JavaScript value semantics

The authorization middleware relies on JavaScript truthiness, strict
equality, and property access on request objects, so those are modelled
directly. -/

/-- A JavaScript runtime value, restricted to the shapes the middleware
touches: undefined, booleans, strings and plain objects (property maps). -/
inductive JSVal where
  | undef
  | bool (b : Bool)
  | str (s : String)
  | obj (props : List (String × JSVal))

/-- JS property access `o.k`: looks the key up in the property map; absent
keys (and non-object receivers) yield undefined. Lookup is case sensitive. -/
def JSVal.getProp : JSVal → String → JSVal
  | JSVal.obj props, k =>
    match props.lookup k with
    | some v => v
    | none => JSVal.undef
  | _, _ => JSVal.undef

/-- JS truthiness: undefined is falsy, a string is truthy iff non-empty, an
object is always truthy. -/
def JSVal.truthy : JSVal → Bool
  | JSVal.undef => false
  | JSVal.bool b => b
  | JSVal.str s => !(s == "")
  | JSVal.obj _ => true

/-- JS strict equality `===`: operands of different runtime types are never
strictly equal (object identity comparison is not needed by the sources and
is conservatively false). -/
def JSVal.strictEq : JSVal → JSVal → Bool
  | JSVal.bool a, JSVal.bool b => a == b
  | JSVal.str a, JSVal.str b => a == b
  | JSVal.undef, JSVal.undef => true
  | _, _ => false

/-- Extract the string payload of a string value (used only after a
truthiness guard on a string-valued claim). -/
def JSVal.asStr : JSVal → String
  | JSVal.str s => s
  | _ => ""

/-! ## Constants

Modelled from the spec: src/app/src/components/constants.js is not under
src/; the spec (sections 3 and 4.4) gives AuthMode in
NOAUTH/BASICAUTH/OIDCAUTH/FULLAUTH and AuthType in NONE/BASIC/BEARER, and
the Permissions enum READ/WRITE/DELETE/MANAGE. They are distinct string
constants; only their distinctness matters to the middleware. -/

def AuthModeNOAUTH : String := "NOAUTH"
def AuthModeBASICAUTH : String := "BASICAUTH"
def AuthModeOIDCAUTH : String := "OIDCAUTH"
def AuthModeFULLAUTH : String := "FULLAUTH"
def AuthTypeNONE : String := "NONE"
def AuthTypeBASIC : String := "BASIC"
def AuthTypeBEARER : String := "BEARER"
def PermissionsREAD : String := "READ"

/-- The outcome of an express middleware: pass to the next handler, or
answer with an api-problem of the given HTTP status and detail string. -/
inductive Decision where
  | next
  | problem (status : Nat) (detail : String)
deriving DecidableEq

/-- Detail string of the checkAppMode 501 problem
(authorization.js line 30). -/
def appModeDetail : String :=
  "Current application mode does not support incoming authentication type"

/-- Detail string of the hasPermission 403 problem
(authorization.js line 96). -/
def permDenialDetail : String := "User lacks permission to complete this action"

/-! ## AppModeGuard — checkAppMode (authorization.js lines 17-37) -/

/-- Embeds checkAppMode. The source reads
`req.currentUser ? req.currentUser.AuthType : undefined` (line 19, capital
A property name) and throws (answered as a 501 problem) when the configured
mode is BASICAUTH with BEARER type auth or OIDCAUTH with BASIC type auth
(lines 22-26); otherwise it calls next. -/
def checkAppMode (authMode : String) (currentUser : JSVal) : Decision :=
  let authType : JSVal :=
    if currentUser.truthy then currentUser.getProp "AuthType" else JSVal.undef
  if authMode == AuthModeBASICAUTH && authType.strictEq (JSVal.str AuthTypeBEARER) then
    Decision.problem 501 appModeDetail
  else if authMode == AuthModeOIDCAUTH && authType.strictEq (JSVal.str AuthTypeBASIC) then
    Decision.problem 501 appModeDetail
  else
    Decision.next

/-- Modelled from the spec: the identity middleware that attaches
req.currentUser is out of scope (spec section 3, RequestIdentity); it sets
the lowercase `authType` property — the very name read by hasPermission
(authorization.js line 82) and by utils getCurrentTokenClaim — together
with the verified token payload. -/
def mkCurrentUser (authType : String) (payload : List (String × JSVal)) : JSVal :=
  JSVal.obj [("authType", JSVal.str authType), ("tokenPayload", JSVal.obj payload)]

/-! ## AccessGate — hasPermission (authorization.js lines 68-101) -/

/-- A row of the object permission table. Modelled from the spec:
recordService is not under src/; spec section 3 gives PermissionRecord as
(objectId, userId, permissionCode); the consuming code reads the
permission code off the field `code` (authorization.js line 86). -/
structure PermRecord where
  objectId : String
  userId : String
  code : String
deriving DecidableEq

/-- Modelled from the spec: recordService.readPermissions(objId, sub)
returns the granted permission records of subject sub on object objId
(spec sections 4.5 step 5 and 4.6, conjunctive filters). -/
def readPermissions (store : List PermRecord) (objId sub : String) : List PermRecord :=
  store.filter (fun p => p.objectId == objId && p.userId == sub)

/-- The resolved object context attached by the currentObject middleware;
the gate only reads its `public` flag (spec section 3, ObjectRecord). -/
structure ObjRecord where
  public : Bool
deriving DecidableEq

/-- Embeds hasPermission. Faithful points:
- the whole check runs only when keycloak is enabled (line 73);
- a missing object record is answered 403, not 404 (lines 74-77);
- line 80 is `!req.currentObject.public || !permission === Permissions.READ`:
  by JS precedence this is `(!permission) === Permissions.READ`, a strict
  equality between a boolean and a string, hence always false — embedded
  with JSVal.strictEq, not simplified away;
- the bearer identity guard (lines 82-83) requires currentUser truthy,
  authType strictly equal to BEARER, a truthy tokenPayload and a truthy sub;
- every thrown error is answered by the single catch with the same
  Problem(403) (lines 94-97). -/
def hasPermission (keycloakEnabled : Bool) (permStore : List PermRecord)
    (currentObject : Option ObjRecord) (currentUser : JSVal)
    (objId : String) (permission : String) : Decision :=
  if keycloakEnabled then
    match currentObject with
    | none => Decision.problem 403 permDenialDetail
    | some obj =>
      if !obj.public
          || JSVal.strictEq (JSVal.bool (!(JSVal.truthy (JSVal.str permission))))
              (JSVal.str PermissionsREAD) then
        if currentUser.truthy
            && JSVal.strictEq (currentUser.getProp "authType") (JSVal.str AuthTypeBEARER)
            && (currentUser.getProp "tokenPayload").truthy
            && ((currentUser.getProp "tokenPayload").getProp "sub").truthy then
          let sub := ((currentUser.getProp "tokenPayload").getProp "sub").asStr
          if (readPermissions permStore objId sub).any (fun p => p.code == permission) then
            Decision.next
          else
            Decision.problem 403 permDenialDetail
        else
          Decision.problem 403 permDenialDetail
      else
        Decision.next
  else
    Decision.next

/-! ## Tag service data model (tag.js, db/models/tables/tag.js) -/

/-- An incoming key/value pair (element of the definitive incoming set). -/
structure KV where
  key : String
  value : String
deriving DecidableEq

/-- A row of the `tag` table: integer surrogate id plus the (key, value)
pair (db/models/tables/tag.js jsonSchema). -/
structure Tag where
  id : Nat
  key : String
  value : String
deriving DecidableEq

/-- A row of the `version_tag` join table: (versionId, tagId) plus the
creation audit actor. -/
structure VersionTag where
  versionId : String
  tagId : Nat
  createdBy : String
deriving DecidableEq

/-- One instance of the tag store: the `tag` table, the `version_tag`
table and the next free surrogate id (sequence). -/
structure TagDB where
  attrs : List Tag
  assocs : List VersionTag
  nextId : Nat
deriving DecidableEq

/-- Row-level write events, used to count inserts and deletes performed by
a run. -/
inductive TagEv where
  | insTag (t : Tag)
  | delTag (t : Tag)
  | insVT (j : VersionTag)
  | delVT (j : VersionTag)
deriving DecidableEq

/-- Embeds utils.getObjectsByKeyValue (components/utils.js) at record
type Tag: first element with exactly the given key and value, if any. -/
def findByKV (l : List Tag) (k w : String) : Option Tag :=
  l.find? (fun o => o.key == k && o.value == w)

/-- Embeds utils.getObjectsByKeyValue at incoming-pair type KV. -/
def findKVin (l : List KV) (k w : String) : Option KV :=
  l.find? (fun o => o.key == k && o.value == w)

/-- Bulk insert returning: the new rows receive consecutive surrogate ids
starting at the current sequence value. -/
def assignIds : Nat → List KV → List Tag
  | _, [] => []
  | n, t :: ts => ⟨n, t.key, t.value⟩ :: assignIds (n + 1) ts

/-- The incoming pairs not present in the current full table scan
(tag.js lines 193-202, the else branch of the forEach). -/
def newKVsOf (tags : List KV) (db : TagDB) : List KV :=
  tags.filter (fun t => (findByKV db.attrs t.key t.value).isNone)

/-- The incoming pairs already present, rebuilt as records carrying the
existing id (tag.js line 196). -/
def existingOf (tags : List KV) (db : TagDB) : List Tag :=
  tags.filterMap (fun t => (findByKV db.attrs t.key t.value).map
    (fun a => (⟨a.id, t.key, t.value⟩ : Tag)))

/-- Embeds createTags (tag.js lines 182-222): scan the whole tag table,
partition the input into existing and genuinely new pairs, bulk-insert only
the new ones, return existing matches concatenated with the new rows. -/
def createTags (tags : List KV) (db : TagDB) : TagDB × List Tag × List TagEv :=
  let newTagset := assignIds db.nextId (newKVsOf tags db)
  if (newKVsOf tags db).isEmpty then
    (db, existingOf tags db, [])
  else
    ({ attrs := db.attrs ++ newTagset, assocs := db.assocs,
       nextId := db.nextId + newTagset.length },
     existingOf tags db ++ newTagset,
     newTagset.map TagEv.insTag)

/-- The ids of tag rows with no remaining version_tag reference
(tag.js lines 156-160: left join, whereNull on the join side). -/
def orphanTagIds (db : TagDB) : List Nat :=
  (db.attrs.filter (fun a => !(db.assocs.any (fun j => j.tagId == a.id)))).map Tag.id

/-- Embeds pruneOrphanedTags (tag.js lines 151-172): select the orphan ids,
then delete every tag row whose id is among them. Returns the deleted row
count. -/
def pruneOrphanedTags (db : TagDB) : TagDB × Nat × List TagEv :=
  let ids := orphanTagIds db
  let deleted := db.attrs.filter (fun a => ids.contains a.id)
  ({ db with attrs := db.attrs.filter (fun a => !(ids.contains a.id)) },
   deleted.length,
   deleted.map TagEv.delTag)

/-- The delete condition of one dissociation step (tag.js lines 117-128):
a version_tag row of this version whose joined tag row matches the given
key, and — when the given value is non-empty — also the given value
(key-only match when the value is empty, line 120). -/
def delPred (attrs : List Tag) (v : String) (t : KV) (j : VersionTag) : Bool :=
  j.versionId == v
    && attrs.any (fun a => a.id == j.tagId && a.key == t.key
        && (t.value == "" || a.value == t.value))

/-- One dissociation delete (one iteration of the forEach in
dissociateTags). -/
def delStep (v : String) (t : KV) (db : TagDB) : TagDB × Nat × List TagEv :=
  let deleted := db.assocs.filter (delPred db.attrs v t)
  ({ db with assocs := db.assocs.filter (fun j => !(delPred db.attrs v t j)) },
   deleted.length,
   deleted.map TagEv.delVT)

/-- The dissociation deletes in input order. The source iterates with
`await tags.forEach(async tag => ...)` (tag.js line 115); all delete
queries are issued synchronously in input order on the single transaction
connection and execute before the subsequent prune queries, so the state
effects are those of this sequential loop. -/
def dissocLoop (v : String) : List KV → TagDB → TagDB × Nat × List TagEv
  | [], db => (db, 0, [])
  | t :: ts, db =>
    let s := delStep v t db
    let r := dissocLoop v ts s.1
    (r.1, s.2.1 + r.2.1, s.2.2 ++ r.2.2)

/-- Embeds dissociateTags (tag.js lines 109-142): the per-tag deletes,
then store-wide orphan pruning (line 134). -/
def dissociateTags (v : String) (tags : List KV) (db : TagDB) :
    TagDB × Nat × List TagEv :=
  let l := dissocLoop v tags db
  let p := pruneOrphanedTags l.1
  (p.1, l.2.1, l.2.2 ++ p.2.2)

/-- The version_tag rows of this version (modifier filterVersionId). -/
def associatedOf (v : String) (db : TagDB) : List VersionTag :=
  db.assocs.filter (fun j => j.versionId == v)

/-- The resolved records not yet joined to this version
(tag.js lines 78-80). -/
def newJoinsOf (v : String) (dbTags : List Tag) (db : TagDB) : List Tag :=
  dbTags.filter (fun e => !((associatedOf v db).any (fun j => j.tagId == e.id)))

/-- Embeds associateTags (tag.js lines 60-98): resolve/create the records
for all input pairs, load the current joins of the version, bulk-insert the
missing join rows with createdBy = currentUserId, return all resolved
records. The body runs only when the input list is non-empty (line 66). -/
def associateTags (v : String) (tags : List KV) (u : String) (db : TagDB) :
    TagDB × List Tag × List TagEv :=
  if tags.isEmpty then (db, [], [])
  else
    let c := createTags tags db
    let nj := newJoinsOf v c.2.1 c.1
    let joins := nj.map (fun e => (⟨v, e.id, u⟩ : VersionTag))
    let db2 := if nj.isEmpty then c.1 else { c.1 with assocs := c.1.assocs ++ joins }
    (db2, c.2.1, c.2.2 ++ joins.map TagEv.insVT)

/-- The tag rows currently associated with the version (tag.js lines 28-30:
Tag joinRelated versionTag, filtered by versionId). -/
def currentTags (v : String) (db : TagDB) : List Tag :=
  db.attrs.filter (fun a => db.assocs.any (fun j => j.tagId == a.id && j.versionId == v))

/-- The currently associated rows whose (key, value) pair is absent from the
incoming set (tag.js lines 33-34, exact-pair match via
getObjectsByKeyValue). -/
def dissocSet (v : String) (tags : List KV) (db : TagDB) : List Tag :=
  (currentTags v db).filter (fun a => (findKVin tags a.key a.value).isNone)

/-- The dissociation stage of replaceTags (tag.js lines 27-35): dissociate
(and prune) only when the dissociation set is non-empty. -/
def rtDissoc (v : String) (tags : List KV) (db : TagDB) : TagDB × List TagEv :=
  if (dissocSet v tags db).isEmpty then (db, [])
  else
    let r := dissociateTags v ((dissocSet v tags db).map (fun a => (⟨a.key, a.value⟩ : KV))) db
    (r.1, r.2.2)

/-- Embeds replaceTags (tag.js lines 20-47): makes the incoming list the
definitive set for the version. The entire body is guarded by
`if (tags && tags.length)` (line 25): a null/undefined (none) or empty
incoming list performs nothing and returns the empty list. -/
def replaceTags (v : String) (tags : Option (List KV)) (u : String) (db : TagDB) :
    TagDB × List Tag × List TagEv :=
  match tags with
  | none => (db, [], [])
  | some ts =>
    if ts.isEmpty then (db, [], [])
    else
      let d := rtDissoc v ts db
      let r := associateTags v ts u d.1
      (r.1, r.2.1, d.2 ++ r.2.2)

/-! ## Metadata service data model (metadata.js) — the source duplicates the
tag code path over the sister tables, so the model duplicates it too. -/

/-- A row of the `metadata` table (db/models/tables/metadata.js). -/
structure Metadata where
  id : Nat
  key : String
  value : String
deriving DecidableEq

/-- A row of the `version_metadata` join table. -/
structure VersionMetadata where
  versionId : String
  metadataId : Nat
  createdBy : String
deriving DecidableEq

/-- One instance of the metadata store. -/
structure MetaDB where
  attrs : List Metadata
  assocs : List VersionMetadata
  nextId : Nat
deriving DecidableEq

/-- Row-level write events on the metadata store. -/
inductive MetaEv where
  | insMd (m : Metadata)
  | delMd (m : Metadata)
  | insVM (j : VersionMetadata)
  | delVM (j : VersionMetadata)
deriving DecidableEq

/-- utils.getObjectsByKeyValue at record type Metadata. -/
def findByKVm (l : List Metadata) (k w : String) : Option Metadata :=
  l.find? (fun o => o.key == k && o.value == w)

/-- Bulk insert returning for the metadata table. -/
def assignIdsM : Nat → List KV → List Metadata
  | _, [] => []
  | n, t :: ts => ⟨n, t.key, t.value⟩ :: assignIdsM (n + 1) ts

/-- The incoming pairs not present in the metadata table scan
(metadata.js lines 121-131). -/
def newKVsOfM (md : List KV) (db : MetaDB) : List KV :=
  md.filter (fun t => (findByKVm db.attrs t.key t.value).isNone)

/-- The incoming pairs already present, rebuilt with their existing id
(metadata.js line 125). -/
def existingOfM (md : List KV) (db : MetaDB) : List Metadata :=
  md.filterMap (fun t => (findByKVm db.attrs t.key t.value).map
    (fun a => (⟨a.id, t.key, t.value⟩ : Metadata)))

/-- Embeds createMetadata (metadata.js lines 110-150), the metadata twin of
createTags. -/
def createMetadata (md : List KV) (db : MetaDB) : MetaDB × List Metadata × List MetaEv :=
  let newSet := assignIdsM db.nextId (newKVsOfM md db)
  if (newKVsOfM md db).isEmpty then
    (db, existingOfM md db, [])
  else
    ({ attrs := db.attrs ++ newSet, assocs := db.assocs,
       nextId := db.nextId + newSet.length },
     existingOfM md db ++ newSet,
     newSet.map MetaEv.insMd)

/-- The ids of metadata rows with no remaining version_metadata reference
(metadata.js lines 84-88). -/
def orphanMetadataIds (db : MetaDB) : List Nat :=
  (db.attrs.filter (fun a => !(db.assocs.any (fun j => j.metadataId == a.id)))).map Metadata.id

/-- Embeds pruneOrphanedMetadata (metadata.js lines 79-100), the metadata
twin of pruneOrphanedTags. -/
def pruneOrphanedMetadata (db : MetaDB) : MetaDB × Nat × List MetaEv :=
  let ids := orphanMetadataIds db
  let deleted := db.attrs.filter (fun a => ids.contains a.id)
  ({ db with attrs := db.attrs.filter (fun a => !(ids.contains a.id)) },
   deleted.length,
   deleted.map MetaEv.delMd)

/-- Embeds associateMetadata (metadata.js lines 23-69). Faithful ordering of
the source: createMetadata runs FIRST (line 31); then the current joins are
loaded (lines 34-35); joins of this version whose metadataId is not among
the resolved ids are deleted (lines 37-43) and, only in that case, the
store-wide prune runs (line 46); finally the resolved records not among the
joins loaded BEFORE the deletion are joined (line 51), and the inserted
join rows are returned (lines 53-60). -/
def associateMetadata (v : String) (md : Option (List KV)) (u : String) (db : MetaDB) :
    MetaDB × List VersionMetadata × List MetaEv :=
  match md with
  | none => (db, [], [])
  | some mds =>
    if mds.isEmpty then (db, [], [])
    else
      let c := createMetadata mds db
      let db1 := c.1
      let dbMetadata := c.2.1
      let associatedMetadata := db1.assocs.filter (fun j => j.versionId == v)
      let dissoc := associatedMetadata.filter
        (fun j => !(dbMetadata.any (fun m => m.id == j.metadataId)))
      let delEvs := db1.assocs.filter
        (fun j => j.versionId == v && dissoc.any (fun d => d.metadataId == j.metadataId))
      let keepJ := fun (j : VersionMetadata) =>
        !(j.versionId == v && dissoc.any (fun d => d.metadataId == j.metadataId))
      let dbDel : MetaDB := { db1 with assocs := db1.assocs.filter keepJ }
      let db2 :=
        if associatedMetadata.isEmpty then db1
        else if dissoc.isEmpty then db1
        else (pruneOrphanedMetadata dbDel).1
      let dEvs :=
        if associatedMetadata.isEmpty then ([] : List MetaEv)
        else if dissoc.isEmpty then []
        else delEvs.map MetaEv.delVM ++ (pruneOrphanedMetadata dbDel).2.2
      let newJoins :=
        if associatedMetadata.isEmpty then dbMetadata
        else dbMetadata.filter (fun m => !(associatedMetadata.any (fun j => j.metadataId == m.id)))
      let joins := newJoins.map (fun m => (⟨v, m.id, u⟩ : VersionMetadata))
      let db3 := if newJoins.isEmpty then db2 else { db2 with assocs := db2.assocs ++ joins }
      (db3, if newJoins.isEmpty then [] else joins, c.2.2 ++ dEvs ++ joins.map MetaEv.insVM)

/-! ## Transaction ownership (the shared try/commit/rollback shell)

Every service function of tag.js and metadata.js wraps its body in the same
pattern: `trx = etrx ? etrx : await Model.startTransaction()`, the body,
`if (!etrx) await trx.commit()`, and on any thrown error
`if (!etrx && trx) await trx.rollback()` followed by a rethrow
(for example tag.js lines 20-47 and metadata.js lines 23-69). The shell is
modelled once, over the list of state-mutating stages of a body; a failure
point may interrupt the body before any stage. -/

/-- A commit or rollback issued on the transaction. -/
inductive TxAct where
  | commit
  | rollback
deriving DecidableEq

/-- Run the body stages in order; `failAt = some i` makes the body throw
just before its i-th stage. Returns the working state reached together with
the success flag. -/
def runSteps {σ : Type} : List (σ → σ) → Option Nat → Nat → σ → σ × Bool
  | [], _, _, s => (s, true)
  | f :: fs, failAt, i, s =>
    if failAt = some i then (s, false)
    else runSteps fs failAt (i + 1) (f s)

/-- The transaction shell: with an externally supplied transaction
(etrx = true) the body outcome — including any failure — is passed to the
owning caller and no commit or rollback is issued; with an owned
transaction (etrx = false) success commits the working state and failure
rolls the store back to its initial state before re-raising. Returns
(body outcome, store state visible after the call, issued actions). -/
def txShell {σ : Type} (etrx : Bool) (steps : List (σ → σ)) (failAt : Option Nat)
    (s : σ) : (σ × Bool) × σ × List TxAct :=
  let r := runSteps steps failAt 0 s
  if r.2 then (r, r.1, if etrx then [] else [TxAct.commit])
  else if etrx then (r, r.1, [])
  else (r, s, [TxAct.rollback])

/-- A call to one of the tag service operations. -/
inductive TagCall where
  | replaceC (v : String) (tags : Option (List KV)) (u : String)
  | associateC (v : String) (tags : List KV) (u : String)
  | dissociateC (v : String) (tags : List KV)
  | createC (tags : List KV)
  | pruneC

/-- The state-mutating stages of each tag service body, built from the
operation embeddings themselves. -/
def tagSteps : TagCall → List (TagDB → TagDB)
  | TagCall.replaceC v tags u =>
    match tags with
    | none => []
    | some ts =>
      if ts.isEmpty then []
      else [fun db => (rtDissoc v ts db).1, fun db => (associateTags v ts u db).1]
  | TagCall.associateC v tags u => [fun db => (associateTags v tags u db).1]
  | TagCall.dissociateC v tags =>
    [fun db => (dissocLoop v tags db).1, fun db => (pruneOrphanedTags db).1]
  | TagCall.createC tags => [fun db => (createTags tags db).1]
  | TagCall.pruneC => [fun db => (pruneOrphanedTags db).1]

/-- A call to one of the metadata service operations. -/
inductive MetaCall where
  | associateMC (v : String) (md : Option (List KV)) (u : String)
  | createMC (md : List KV)
  | pruneMC

/-- The state-mutating stages of each metadata service body. -/
def metaSteps : MetaCall → List (MetaDB → MetaDB)
  | MetaCall.associateMC v md u => [fun db => (associateMetadata v md u db).1]
  | MetaCall.createMC md => [fun db => (createMetadata md db).1]
  | MetaCall.pruneMC => [fun db => (pruneOrphanedMetadata db).1]

/-! ## Sample stores for concrete evaluations -/

/-- A tag store holding one record (a,1) associated with version v. -/
def tdb1 : TagDB := ⟨[⟨1, "a", "1"⟩], [⟨"v", 1, "u0"⟩], 2⟩

/-- A metadata store holding one record (a,1) associated with version v. -/
def mdb1 : MetaDB := ⟨[⟨1, "a", "1"⟩], [⟨"v", 1, "u0"⟩], 2⟩

/-- A tag store with one referenced record and one orphan record. -/
def tdb2 : TagDB := ⟨[⟨1, "a", "1"⟩, ⟨2, "b", "2"⟩], [⟨"v", 1, "u0"⟩], 3⟩

/-- A metadata store with one referenced record and one orphan record. -/
def mdb2 : MetaDB := ⟨[⟨1, "a", "1"⟩, ⟨2, "b", "2"⟩], [⟨"v", 1, "u0"⟩], 3⟩

/-! ## Shared helper lemmas -/

/-- replaceTags performs nothing on a null/undefined or empty incoming
list (tag.js line 25 guard). -/
theorem replaceTags_empty_noop (v u : String) (db : TagDB) :
    replaceTags v none u db = (db, [], []) ∧ replaceTags v (some []) u db = (db, [], []) :=
  ⟨rfl, rfl⟩

/-- associateMetadata performs nothing on a null/undefined or empty
incoming list (metadata.js line 29 guard). -/
theorem associateMetadata_empty_noop (v u : String) (db : MetaDB) :
    associateMetadata v none u db = (db, [], []) ∧
      associateMetadata v (some []) u db = (db, [], []) :=
  ⟨rfl, rfl⟩

/-- The transaction shell: passthrough of the body outcome, no actions on
an external transaction, commit of the working state on owned success,
rollback to the initial state on owned failure. -/
theorem txShell_spec {σ : Type} (steps : List (σ → σ)) (failAt : Option Nat) (s : σ) :
    (txShell true steps failAt s).2.2 = [] ∧
    (txShell true steps failAt s).1 = runSteps steps failAt 0 s ∧
    (txShell false steps failAt s).1 = runSteps steps failAt 0 s ∧
    ((runSteps steps failAt 0 s).2 = true →
      (txShell false steps failAt s).2.1 = (runSteps steps failAt 0 s).1 ∧
      (txShell false steps failAt s).2.2 = [TxAct.commit]) ∧
    ((runSteps steps failAt 0 s).2 = false →
      (txShell false steps failAt s).2.1 = s ∧
      (txShell false steps failAt s).2.2 = [TxAct.rollback]) := by
  by_cases hr : (runSteps steps failAt 0 s).2 = true
  · simp [txShell, hr]
  · have hr' : (runSteps steps failAt 0 s).2 = false := by
      simpa using hr
    simp [txShell, hr']

/-! ## Claim theorems (part 1) -/

/-- C1. On a public object, hasPermission allows a non-READ permission with
no identity at all: line 80 reads `!req.currentObject.public || !permission
=== Permissions.READ`, and `(!permission) === Permissions.READ` compares a
boolean with a string, so it is always false and the guard reduces to
`!public`. The claim (and the code comment at lines 79-81) requires this
request to be denied; the code passes it to the next handler. -/
theorem c1_public_nonread_allowed :
    hasPermission true [] (some ⟨true⟩) JSVal.undef "obj1" "UPDATE" = Decision.next := by
  decide

/-- C2 counterexample. replaceTags with the empty incoming set does not
remove the associations of the version: the body is skipped entirely, so
the association of version v in tdb1 survives. -/
theorem c2_counterexample :
    (⟨"v", 1, "u0"⟩ : VersionTag) ∈ (replaceTags "v" (some []) "u" tdb1).1.assocs := by
  decide

/-- C2 (amended). replaceTags and associateMetadata with an empty (or
null/undefined) incoming set are no-ops: the stores are returned unchanged
— no association is removed, nothing is inserted or deleted — and the
empty list is returned. -/
theorem c2_empty_noop :
    ∀ (v u : String) (tdb : TagDB) (mdb : MetaDB),
      replaceTags v none u tdb = (tdb, [], []) ∧
      replaceTags v (some []) u tdb = (tdb, [], []) ∧
      associateMetadata v none u mdb = (mdb, [], []) ∧
      associateMetadata v (some []) u mdb = (mdb, [], []) :=
  fun v u tdb mdb =>
    ⟨(replaceTags_empty_noop v u tdb).1, (replaceTags_empty_noop v u tdb).2,
     (associateMetadata_empty_noop v u mdb).1, (associateMetadata_empty_noop v u mdb).2⟩

/-- C3. In associateMetadata the incoming records are created BEFORE the
orphan prune: starting from mdb1 (record (a,1) associated with v), the run
associateMetadata(v, [(b,2)], u) creates the record (b,2) with id 2, then
dissociates (a,1), and the prune — running after creation but before the
join step — deletes BOTH records, including the freshly created (b,2); the
join step then inserts an association to the already deleted id 2. The
final store has no metadata records at all and a dangling join. -/
theorem c3_metadata_incoming_pruned :
    (associateMetadata "v" (some [⟨"b", "2"⟩]) "u" mdb1).1.attrs = [] ∧
    (associateMetadata "v" (some [⟨"b", "2"⟩]) "u" mdb1).1.assocs
      = [(⟨"v", 2, "u"⟩ : VersionMetadata)] := by
  constructor <;> decide

/-- C4. checkAppMode reads `req.currentUser.AuthType` (capital A,
authorization.js line 19) but the identity middleware sets the lowercase
`authType` property (the one read at line 82), so the read is always
undefined and the 501 rejection never fires: server mode BASICAUTH with a
BEARER request — and OIDCAUTH with a BASIC request — pass to the next
handler, against the claim. -/
theorem c4_basicauth_bearer_passes :
    checkAppMode AuthModeBASICAUTH (mkCurrentUser AuthTypeBEARER []) = Decision.next ∧
    checkAppMode AuthModeOIDCAUTH (mkCurrentUser AuthTypeBASIC []) = Decision.next := by
  constructor <;> decide

/-- C9. With enforcement active and no resolved object context,
hasPermission denies with the 403 problem; and every possible denial of
hasPermission is that very same 403 problem — a 404 (or any other status or
detail) is impossible, so a missing object is indistinguishable from an
unauthorized one. -/
theorem c9_uniform_forbidden :
    (∀ (ps : List PermRecord) (cu : JSVal) (oid p : String),
        hasPermission true ps none cu oid p = Decision.problem 403 permDenialDetail) ∧
    (∀ (kc : Bool) (ps : List PermRecord) (co : Option ObjRecord) (cu : JSVal)
        (oid p : String),
        hasPermission kc ps co cu oid p = Decision.next ∨
        hasPermission kc ps co cu oid p = Decision.problem 403 permDenialDetail) := by
  constructor
  · intro ps cu oid p
    rfl
  · intro kc ps co cu oid p
    cases kc with
    | false => exact Or.inl rfl
    | true =>
      cases co with
      | none => exact Or.inr rfl
      | some obj =>
        simp only [hasPermission]
        repeat' split
        all_goals first
          | exact Or.inl rfl
          | exact Or.inr rfl

/-- C10. replaceTags and associateMetadata treat an empty, null or
undefined incoming list as a no-op: no row is inserted or deleted in the
attribute store or the association table, the store is returned unchanged,
and the returned list is empty. -/
theorem c10_empty_noop :
    ∀ (v u : String) (tdb : TagDB) (mdb : MetaDB),
      replaceTags v none u tdb = (tdb, [], []) ∧
      replaceTags v (some []) u tdb = (tdb, [], []) ∧
      associateMetadata v none u mdb = (mdb, [], []) ∧
      associateMetadata v (some []) u mdb = (mdb, [], []) :=
  fun v u tdb mdb =>
    ⟨(replaceTags_empty_noop v u tdb).1, (replaceTags_empty_noop v u tdb).2,
     (associateMetadata_empty_noop v u mdb).1, (associateMetadata_empty_noop v u mdb).2⟩

/-- C8. Transaction ownership of every service operation: with an external
transaction the shell issues no commit and no rollback and passes the body
outcome — failures included — to the owning caller; with an owned
transaction success commits the final working state and any failure rolls
the store back to its initial state before re-raising. The stage lists fed
to the shell are the real operation bodies: the final three conjuncts
identify their composition with replaceTags, dissociateTags and
associateMetadata. -/
theorem c8_tx_ownership :
    (∀ (c : TagCall) (failAt : Option Nat) (db : TagDB),
      (txShell true (tagSteps c) failAt db).2.2 = [] ∧
      (txShell true (tagSteps c) failAt db).1 = runSteps (tagSteps c) failAt 0 db ∧
      (txShell false (tagSteps c) failAt db).1 = runSteps (tagSteps c) failAt 0 db ∧
      ((runSteps (tagSteps c) failAt 0 db).2 = true →
        (txShell false (tagSteps c) failAt db).2.1 = (runSteps (tagSteps c) failAt 0 db).1 ∧
        (txShell false (tagSteps c) failAt db).2.2 = [TxAct.commit]) ∧
      ((runSteps (tagSteps c) failAt 0 db).2 = false →
        (txShell false (tagSteps c) failAt db).2.1 = db ∧
        (txShell false (tagSteps c) failAt db).2.2 = [TxAct.rollback])) ∧
    (∀ (c : MetaCall) (failAt : Option Nat) (db : MetaDB),
      (txShell true (metaSteps c) failAt db).2.2 = [] ∧
      (txShell true (metaSteps c) failAt db).1 = runSteps (metaSteps c) failAt 0 db ∧
      (txShell false (metaSteps c) failAt db).1 = runSteps (metaSteps c) failAt 0 db ∧
      ((runSteps (metaSteps c) failAt 0 db).2 = true →
        (txShell false (metaSteps c) failAt db).2.1 = (runSteps (metaSteps c) failAt 0 db).1 ∧
        (txShell false (metaSteps c) failAt db).2.2 = [TxAct.commit]) ∧
      ((runSteps (metaSteps c) failAt 0 db).2 = false →
        (txShell false (metaSteps c) failAt db).2.1 = db ∧
        (txShell false (metaSteps c) failAt db).2.2 = [TxAct.rollback])) ∧
    (∀ (v : String) (tags : Option (List KV)) (u : String) (db : TagDB),
      (tagSteps (TagCall.replaceC v tags u)).foldl (fun s f => f s) db
        = (replaceTags v tags u db).1) ∧
    (∀ (v : String) (tags : List KV) (db : TagDB),
      (tagSteps (TagCall.dissociateC v tags)).foldl (fun s f => f s) db
        = (dissociateTags v tags db).1) ∧
    (∀ (v : String) (md : Option (List KV)) (u : String) (db : MetaDB),
      (metaSteps (MetaCall.associateMC v md u)).foldl (fun s f => f s) db
        = (associateMetadata v md u db).1) := by
  refine ⟨fun c failAt db => txShell_spec _ _ _,
          fun c failAt db => txShell_spec _ _ _, ?_, ?_, ?_⟩
  · intro v tags u db
    cases tags with
    | none => rfl
    | some ts =>
      by_cases h : ts.isEmpty
      · simp [tagSteps, replaceTags, h]
      · simp [tagSteps, replaceTags, h]
  · intro v tags db
    rfl
  · intro v md u db
    rfl

/-- Witness for C8: a concrete owned-transaction run whose body fails
before its first stage; the store is rolled back (unchanged) and exactly
one rollback is issued. -/
theorem c8_witness :
    (runSteps (tagSteps TagCall.pruneC) (some 0) 0 tdb1).2 = false ∧
    (txShell false (tagSteps TagCall.pruneC) (some 0) tdb1).2.1 = tdb1 ∧
    (txShell false (tagSteps TagCall.pruneC) (some 0) tdb1).2.2 = [TxAct.rollback] :=
  ⟨by decide,
   ((c8_tx_ownership.1 TagCall.pruneC (some 0) tdb1).2.2.2.2 (by decide)).1,
   ((c8_tx_ownership.1 TagCall.pruneC (some 0) tdb1).2.2.2.2 (by decide)).2⟩

/-- List.contains agrees with membership on Nat ids. -/
theorem contains_iff {l : List Nat} {a : Nat} : l.contains a = true ↔ a ∈ l :=
  List.elem_iff

/-- Characterization of the tag prune: associations and sequence untouched,
and a record survives iff it is still referenced by some association. -/
theorem pruneOrphanedTags_exact (db : TagDB) (h : (db.attrs.map Tag.id).Nodup) :
    (pruneOrphanedTags db).1.assocs = db.assocs ∧
    (pruneOrphanedTags db).1.nextId = db.nextId ∧
    ∀ a : Tag, a ∈ (pruneOrphanedTags db).1.attrs ↔
      a ∈ db.attrs ∧ db.assocs.any (fun j => j.tagId == a.id) = true := by
  refine ⟨rfl, rfl, fun a => ?_⟩
  constructor
  · intro ha
    have ha' := List.mem_filter.mp ha
    obtain ⟨ha1, ha2⟩ := ha'
    refine ⟨ha1, ?_⟩
    by_contra hno
    have horph : a.id ∈ orphanTagIds db := by
      unfold orphanTagIds
      exact List.mem_map_of_mem _ (List.mem_filter.mpr ⟨ha1, by simpa using hno⟩)
    rw [Bool.not_eq_eq_eq_not, Bool.not_true] at ha2
    have hcontr := contains_iff.mpr horph
    rw [ha2] at hcontr
    simp at hcontr
  · rintro ⟨ha1, hany⟩
    refine List.mem_filter.mpr ⟨ha1, ?_⟩
    simp only [Bool.not_eq_eq_eq_not, Bool.not_true]
    by_contra hc
    have hc' : (orphanTagIds db).contains a.id = true := by
      cases hcc : (orphanTagIds db).contains a.id with
      | true => rfl
      | false => exact absurd hcc hc
    have hmem := contains_iff.mp hc'
    unfold orphanTagIds at hmem
    obtain ⟨b, hb, hbid⟩ := List.mem_map.mp hmem
    have hb' := List.mem_filter.mp hb
    have hba : b = a := List.inj_on_of_nodup_map h hb'.1 ha1 hbid
    rw [hba] at hb'
    simp only [hany] at hb'
    exact absurd hb'.2 (by simp)

/-- Characterization of the metadata prune (twin proof). -/
theorem pruneOrphanedMetadata_exact (db : MetaDB) (h : (db.attrs.map Metadata.id).Nodup) :
    (pruneOrphanedMetadata db).1.assocs = db.assocs ∧
    (pruneOrphanedMetadata db).1.nextId = db.nextId ∧
    ∀ a : Metadata, a ∈ (pruneOrphanedMetadata db).1.attrs ↔
      a ∈ db.attrs ∧ db.assocs.any (fun j => j.metadataId == a.id) = true := by
  refine ⟨rfl, rfl, fun a => ?_⟩
  constructor
  · intro ha
    have ha' := List.mem_filter.mp ha
    obtain ⟨ha1, ha2⟩ := ha'
    refine ⟨ha1, ?_⟩
    by_contra hno
    have horph : a.id ∈ orphanMetadataIds db := by
      unfold orphanMetadataIds
      exact List.mem_map_of_mem _ (List.mem_filter.mpr ⟨ha1, by simpa using hno⟩)
    rw [Bool.not_eq_eq_eq_not, Bool.not_true] at ha2
    have hcontr := contains_iff.mpr horph
    rw [ha2] at hcontr
    simp at hcontr
  · rintro ⟨ha1, hany⟩
    refine List.mem_filter.mpr ⟨ha1, ?_⟩
    simp only [Bool.not_eq_eq_eq_not, Bool.not_true]
    by_contra hc
    have hc' : (orphanMetadataIds db).contains a.id = true := by
      cases hcc : (orphanMetadataIds db).contains a.id with
      | true => rfl
      | false => exact absurd hcc hc
    have hmem := contains_iff.mp hc'
    unfold orphanMetadataIds at hmem
    obtain ⟨b, hb, hbid⟩ := List.mem_map.mp hmem
    have hb' := List.mem_filter.mp hb
    have hba : b = a := List.inj_on_of_nodup_map h hb'.1 ha1 hbid
    rw [hba] at hb'
    simp only [hany] at hb'
    exact absurd hb'.2 (by simp)

/-- C7. Both prune operations delete exactly the attribute records with
zero remaining association references: associations are untouched, a record
still referenced by some association always survives, and a record with no
remaining reference is always deleted. -/
theorem c7_prune_exact :
    (∀ db : TagDB, (db.attrs.map Tag.id).Nodup →
      (pruneOrphanedTags db).1.assocs = db.assocs ∧
      (pruneOrphanedTags db).1.nextId = db.nextId ∧
      ∀ a : Tag, a ∈ (pruneOrphanedTags db).1.attrs ↔
        a ∈ db.attrs ∧ db.assocs.any (fun j => j.tagId == a.id) = true) ∧
    (∀ db : MetaDB, (db.attrs.map Metadata.id).Nodup →
      (pruneOrphanedMetadata db).1.assocs = db.assocs ∧
      (pruneOrphanedMetadata db).1.nextId = db.nextId ∧
      ∀ a : Metadata, a ∈ (pruneOrphanedMetadata db).1.attrs ↔
        a ∈ db.attrs ∧ db.assocs.any (fun j => j.metadataId == a.id) = true) :=
  ⟨pruneOrphanedTags_exact, pruneOrphanedMetadata_exact⟩

/-- Witness for C7: in tdb2 and mdb2 the record (b,2) id 2 is orphaned and
the record (a,1) id 1 is still referenced by version v; pruning deletes
exactly the orphan on both stores. -/
theorem c7_witness :
    ((tdb2.attrs.map Tag.id).Nodup ∧
      ((⟨1, "a", "1"⟩ : Tag) ∈ (pruneOrphanedTags tdb2).1.attrs ↔
        (⟨1, "a", "1"⟩ : Tag) ∈ tdb2.attrs ∧
          tdb2.assocs.any (fun j => j.tagId == (1 : Nat)) = true) ∧
      ((⟨2, "b", "2"⟩ : Tag) ∈ (pruneOrphanedTags tdb2).1.attrs ↔
        (⟨2, "b", "2"⟩ : Tag) ∈ tdb2.attrs ∧
          tdb2.assocs.any (fun j => j.tagId == (2 : Nat)) = true)) ∧
    ((mdb2.attrs.map Metadata.id).Nodup ∧
      ((⟨2, "b", "2"⟩ : Metadata) ∈ (pruneOrphanedMetadata mdb2).1.attrs ↔
        (⟨2, "b", "2"⟩ : Metadata) ∈ mdb2.attrs ∧
          mdb2.assocs.any (fun j => j.metadataId == (2 : Nat)) = true)) :=
  ⟨⟨by decide,
    (c7_prune_exact.1 tdb2 (by decide)).2.2 ⟨1, "a", "1"⟩,
    (c7_prune_exact.1 tdb2 (by decide)).2.2 ⟨2, "b", "2"⟩⟩,
   ⟨by decide,
    (c7_prune_exact.2 mdb2 (by decide)).2.2 ⟨2, "b", "2"⟩⟩⟩

/-! ## Helper lemmas for sharing (C6) -/

/-- createTags on a single pair absent from the store: one fresh record is
inserted with the current sequence id. -/
theorem createTags_fresh_singleton (k w : String) (db : TagDB)
    (h1 : findByKV db.attrs k w = none) :
    createTags [⟨k, w⟩] db =
      (⟨db.attrs ++ [⟨db.nextId, k, w⟩], db.assocs, db.nextId + 1⟩,
       [(⟨db.nextId, k, w⟩ : Tag)], [TagEv.insTag ⟨db.nextId, k, w⟩]) := by
  have hn : newKVsOf [⟨k, w⟩] db = [⟨k, w⟩] := by
    simp [newKVsOf, h1]
  have he : existingOf [⟨k, w⟩] db = [] := by
    simp [existingOf, h1]
  simp [createTags, hn, he, assignIds]

/-- createTags on a single pair already present: nothing is inserted and the
existing id is returned. -/
theorem createTags_existing_singleton (k w : String) (db : TagDB) (a : Tag)
    (hf : findByKV db.attrs k w = some a) :
    createTags [⟨k, w⟩] db = (db, [(⟨a.id, k, w⟩ : Tag)], []) := by
  have hn : newKVsOf [⟨k, w⟩] db = [] := by
    simp [newKVsOf, hf]
  have he : existingOf [⟨k, w⟩] db = [⟨a.id, k, w⟩] := by
    simp [existingOf, hf]
  simp [createTags, hn, he]

/-- No association can reference an id at or above the sequence bound. -/
theorem lt_any_false (l : List VersionTag) (n : Nat) (h : ∀ j ∈ l, j.tagId < n) :
    l.any (fun j => j.tagId == n) = false := by
  rw [List.any_eq_false]
  intro j hj
  have := h j hj
  simp only [beq_iff_eq]
  omega

/-- findByKV distributes over append. -/
theorem findByKV_append (l1 l2 : List Tag) (k w : String) :
    findByKV (l1 ++ l2) k w = (findByKV l1 k w).or (findByKV l2 k w) :=
  List.find?_append

/-- associateTags of a single fresh pair: the record is created with the
current sequence id and joined to the version. -/
theorem associateTags_fresh_singleton (v u k w : String) (db : TagDB)
    (h1 : findByKV db.attrs k w = none)
    (h2 : ∀ j ∈ db.assocs, j.tagId < db.nextId) :
    (associateTags v [⟨k, w⟩] u db).1 =
      ⟨db.attrs ++ [⟨db.nextId, k, w⟩], db.assocs ++ [⟨v, db.nextId, u⟩], db.nextId + 1⟩ := by
  have hc := createTags_fresh_singleton k w db h1
  have hany : (associatedOf v (⟨db.attrs ++ [⟨db.nextId, k, w⟩], db.assocs,
      db.nextId + 1⟩ : TagDB)).any (fun j => j.tagId == db.nextId) = false := by
    refine lt_any_false _ _ ?_
    intro j hj
    exact h2 j (List.mem_filter.mp hj).1
  simp only [associateTags, hc]
  simp [newJoinsOf, hany]

/-! ## Claim theorem C6 -/

/-- C6. Associating the same (key, value) pair with two different versions
creates exactly one attribute record for that pair and exactly two
association records, one per version. Hypotheses: the pair is not yet in
the store, every existing association id is below the sequence bound, and
the versions differ. -/
theorem c6_shared_attribute (v1 v2 u1 u2 k w : String) (db : TagDB)
    (h1 : findByKV db.attrs k w = none)
    (h2 : ∀ j ∈ db.assocs, j.tagId < db.nextId)
    (h3 : v1 ≠ v2) :
    (((associateTags v2 [⟨k, w⟩] u2 (associateTags v1 [⟨k, w⟩] u1 db).1).1.attrs.filter
        (fun a => a.key == k && a.value == w)).length = 1) ∧
    (((associateTags v2 [⟨k, w⟩] u2 (associateTags v1 [⟨k, w⟩] u1 db).1).1.assocs.filter
        (fun j => j.tagId == db.nextId)).length = 2) ∧
    (((associateTags v2 [⟨k, w⟩] u2 (associateTags v1 [⟨k, w⟩] u1 db).1).1.assocs.filter
        (fun j => j.tagId == db.nextId && j.versionId == v1)).length = 1) ∧
    (((associateTags v2 [⟨k, w⟩] u2 (associateTags v1 [⟨k, w⟩] u1 db).1).1.assocs.filter
        (fun j => j.tagId == db.nextId && j.versionId == v2)).length = 1) := by
  have e1 : (associateTags v1 [⟨k, w⟩] u1 db).1 =
      ⟨db.attrs ++ [⟨db.nextId, k, w⟩], db.assocs ++ [⟨v1, db.nextId, u1⟩], db.nextId + 1⟩ :=
    associateTags_fresh_singleton v1 u1 k w db h1 h2
  have hf2 : findByKV (db.attrs ++ [⟨db.nextId, k, w⟩]) k w = some ⟨db.nextId, k, w⟩ := by
    rw [findByKV_append, h1]
    simp [findByKV]
  have hcex := createTags_existing_singleton k w
    (⟨db.attrs ++ [⟨db.nextId, k, w⟩], db.assocs ++ [⟨v1, db.nextId, u1⟩], db.nextId + 1⟩ : TagDB)
    ⟨db.nextId, k, w⟩ hf2
  have hv12 : (v1 == v2) = false := beq_eq_false_iff_ne.mpr h3
  have hassoc2 : associatedOf v2 (⟨db.attrs ++ [⟨db.nextId, k, w⟩],
      db.assocs ++ [⟨v1, db.nextId, u1⟩], db.nextId + 1⟩ : TagDB)
      = db.assocs.filter (fun j => j.versionId == v2) := by
    simp [associatedOf, List.filter_append, hv12]
  have hany2 : (associatedOf v2 (⟨db.attrs ++ [⟨db.nextId, k, w⟩],
      db.assocs ++ [⟨v1, db.nextId, u1⟩], db.nextId + 1⟩ : TagDB)).any
      (fun j => j.tagId == db.nextId) = false := by
    rw [hassoc2]
    refine lt_any_false _ _ ?_
    intro j hj
    exact h2 j (List.mem_filter.mp hj).1
  have e2 : (associateTags v2 [⟨k, w⟩] u2 (associateTags v1 [⟨k, w⟩] u1 db).1).1 =
      ⟨db.attrs ++ [⟨db.nextId, k, w⟩],
       (db.assocs ++ [⟨v1, db.nextId, u1⟩]) ++ [⟨v2, db.nextId, u2⟩], db.nextId + 1⟩ := by
    rw [e1]
    simp only [associateTags, hcex]
    simp [newJoinsOf, hany2]
  rw [e2]
  have hattr0 : db.attrs.filter (fun a => a.key == k && a.value == w) = [] := by
    rw [List.filter_eq_nil_iff]
    intro a ha
    exact (List.find?_eq_none.mp h1) a ha
  have hid0 : db.assocs.filter (fun j => j.tagId == db.nextId) = [] := by
    rw [List.filter_eq_nil_iff]
    intro j hj
    have := h2 j hj
    simp only [beq_iff_eq]
    omega
  have hid1 : db.assocs.filter (fun j => j.tagId == db.nextId && j.versionId == v1) = [] := by
    rw [List.filter_eq_nil_iff]
    intro j hj
    have := h2 j hj
    simp only [beq_iff_eq, Bool.and_eq_true]
    omega
  have hid2 : db.assocs.filter (fun j => j.tagId == db.nextId && j.versionId == v2) = [] := by
    rw [List.filter_eq_nil_iff]
    intro j hj
    have := h2 j hj
    simp only [beq_iff_eq, Bool.and_eq_true]
    omega
  have hv21 : (v2 == v1) = false := beq_eq_false_iff_ne.mpr (Ne.symm h3)
  refine ⟨?_, ?_, ?_, ?_⟩
  · simp [List.filter_append, hattr0]
  · simp [List.filter_append, hid0]
  · simp [List.filter_append, hid1, hv21]
  · simp [List.filter_append, hid2, hv12]

/-- Witness for C6: starting from the empty store, associating (color, red)
with versions v1 and v2. -/
theorem c6_witness :
    (findByKV (⟨[], [], 0⟩ : TagDB).attrs "color" "red" = none ∧
      (∀ j ∈ (⟨[], [], 0⟩ : TagDB).assocs, j.tagId < (⟨[], [], 0⟩ : TagDB).nextId) ∧
      ("v1" : String) ≠ "v2") ∧
    ((((associateTags "v2" [⟨"color", "red"⟩] "u2"
        (associateTags "v1" [⟨"color", "red"⟩] "u1" (⟨[], [], 0⟩ : TagDB)).1).1.attrs.filter
          (fun a => a.key == "color" && a.value == "red")).length = 1) ∧
     (((associateTags "v2" [⟨"color", "red"⟩] "u2"
        (associateTags "v1" [⟨"color", "red"⟩] "u1" (⟨[], [], 0⟩ : TagDB)).1).1.assocs.filter
          (fun j => j.tagId == (⟨[], [], 0⟩ : TagDB).nextId)).length = 2) ∧
     (((associateTags "v2" [⟨"color", "red"⟩] "u2"
        (associateTags "v1" [⟨"color", "red"⟩] "u1" (⟨[], [], 0⟩ : TagDB)).1).1.assocs.filter
          (fun j => j.tagId == (⟨[], [], 0⟩ : TagDB).nextId && j.versionId == "v1")).length = 1) ∧
     (((associateTags "v2" [⟨"color", "red"⟩] "u2"
        (associateTags "v1" [⟨"color", "red"⟩] "u1" (⟨[], [], 0⟩ : TagDB)).1).1.assocs.filter
          (fun j => j.tagId == (⟨[], [], 0⟩ : TagDB).nextId && j.versionId == "v2")).length = 1)) :=
  ⟨⟨by decide, by decide, by decide⟩,
   c6_shared_attribute "v1" "v2" "u1" "u2" "color" "red" (⟨[], [], 0⟩ : TagDB)
     (by decide) (by decide) (by decide)⟩

/-! ## Helper lemmas for idempotence (C5): assignIds and createTags -/

/-- The inserted rows carry exactly the input pairs. -/
theorem assignIds_pairs (n : Nat) (kvs : List KV) :
    (assignIds n kvs).map (fun a => (a.key, a.value))
      = kvs.map (fun p => (p.key, p.value)) := by
  induction kvs generalizing n with
  | nil => rfl
  | cons t ts ih => simp [assignIds, ih]

/-- Every inserted row has an id at or above the starting sequence value and
carries a pair of the input. -/
theorem assignIds_mem {n : Nat} {kvs : List KV} {a : Tag} (h : a ∈ assignIds n kvs) :
    n ≤ a.id ∧ ∃ p ∈ kvs, a.key = p.key ∧ a.value = p.value := by
  induction kvs generalizing n with
  | nil => cases h
  | cons t ts ih =>
    rcases List.mem_cons.mp h with h | h
    · subst h
      exact ⟨Nat.le_refl _, t, List.mem_cons_self _ _, rfl, rfl⟩
    · obtain ⟨hle, p, hp, hkv⟩ := ih h
      exact ⟨Nat.le_of_succ_le hle, p, List.mem_cons_of_mem _ hp, hkv⟩

/-- Every input pair is carried by some inserted row. -/
theorem assignIds_exists {n : Nat} {kvs : List KV} {p : KV} (h : p ∈ kvs) :
    ∃ a ∈ assignIds n kvs, a.key = p.key ∧ a.value = p.value := by
  induction kvs generalizing n with
  | nil => cases h
  | cons t ts ih =>
    rcases List.mem_cons.mp h with h | h
    · subst h
      exact ⟨⟨n, p.key, p.value⟩, List.mem_cons_self _ _, rfl, rfl⟩
    · obtain ⟨a, ha, hkv⟩ := ih (n := n + 1) h
      exact ⟨a, List.mem_cons_of_mem _ ha, hkv⟩

/-- The inserted rows receive the consecutive ids from the sequence. -/
theorem assignIds_ids (n : Nat) (kvs : List KV) :
    (assignIds n kvs).map Tag.id = List.range' n kvs.length := by
  induction kvs generalizing n with
  | nil => rfl
  | cons t ts ih => simp [assignIds, List.range'_succ, ih]

theorem assignIds_length (n : Nat) (kvs : List KV) :
    (assignIds n kvs).length = kvs.length := by
  induction kvs generalizing n with
  | nil => rfl
  | cons t ts ih => simp [assignIds, ih]

/-- Structural description of createTags: appended rows. -/
theorem createTags_attrs (S : List KV) (db : TagDB) :
    (createTags S db).1.attrs = db.attrs ++ assignIds db.nextId (newKVsOf S db) := by
  unfold createTags
  by_cases h : (newKVsOf S db).isEmpty
  · rw [List.isEmpty_iff] at h
    simp [h, assignIds]
  · simp [h]

theorem createTags_assocs (S : List KV) (db : TagDB) :
    (createTags S db).1.assocs = db.assocs := by
  unfold createTags
  by_cases h : (newKVsOf S db).isEmpty <;> simp [h]

theorem createTags_nextId (S : List KV) (db : TagDB) :
    (createTags S db).1.nextId = db.nextId + (newKVsOf S db).length := by
  unfold createTags
  by_cases h : (newKVsOf S db).isEmpty
  · rw [List.isEmpty_iff] at h
    simp [h]
  · simp [h, assignIds_length]

theorem createTags_resp (S : List KV) (db : TagDB) :
    (createTags S db).2.1 = existingOf S db ++ assignIds db.nextId (newKVsOf S db) := by
  unfold createTags
  by_cases h : (newKVsOf S db).isEmpty
  · rw [List.isEmpty_iff] at h
    simp [h, assignIds]
  · simp [h]

/-- Unpacking membership in the existing partition. -/
theorem mem_existingOf {S : List KV} {db : TagDB} {e : Tag} (h : e ∈ existingOf S db) :
    ∃ p ∈ S, ∃ a0 : Tag, findByKV db.attrs p.key p.value = some a0
      ∧ e = ⟨a0.id, p.key, p.value⟩ := by
  unfold existingOf at h
  obtain ⟨p, hp, hmap⟩ := List.mem_filterMap.mp h
  rcases hf : findByKV db.attrs p.key p.value with _ | a0
  · rw [hf] at hmap
    cases hmap
  · rw [hf] at hmap
    simp only [Option.map_some', Option.some.injEq] at hmap
    exact ⟨p, hp, a0, hf, hmap.symm⟩

/-- What a found record satisfies. -/
theorem findByKV_some {l : List Tag} {k w : String} {a : Tag}
    (h : findByKV l k w = some a) : a ∈ l ∧ a.key = k ∧ a.value = w := by
  refine ⟨List.mem_of_find?_eq_some h, ?_⟩
  have := List.find?_some h
  simp only [Bool.and_eq_true, beq_iff_eq] at this
  exact this

/-- Every input pair is represented in the createTags response. -/
theorem createTags_resp_complete {S : List KV} (db : TagDB) {p : KV} (hp : p ∈ S) :
    ∃ e ∈ (createTags S db).2.1, e.key = p.key ∧ e.value = p.value := by
  rw [createTags_resp]
  rcases hf : findByKV db.attrs p.key p.value with _ | a0
  · have hpn : p ∈ newKVsOf S db := by
      unfold newKVsOf
      exact List.mem_filter.mpr ⟨hp, by simp [hf]⟩
    obtain ⟨a, ha, hkv⟩ := assignIds_exists (n := db.nextId) hpn
    exact ⟨a, List.mem_append.mpr (Or.inr ha), hkv⟩
  · refine ⟨⟨a0.id, p.key, p.value⟩, List.mem_append.mpr (Or.inl ?_), rfl, rfl⟩
    unfold existingOf
    exact List.mem_filterMap.mpr ⟨p, hp, by rw [hf]; rfl⟩

/-- Every record of the createTags response carries a pair of the input and
denotes a row present in the resulting store. -/
theorem createTags_resp_attr {S : List KV} {db : TagDB} {e : Tag}
    (h : e ∈ (createTags S db).2.1) :
    (∃ p ∈ S, e.key = p.key ∧ e.value = p.value) ∧
    ∃ a ∈ (createTags S db).1.attrs, a.id = e.id ∧ a.key = e.key ∧ a.value = e.value := by
  rw [createTags_resp] at h
  rw [createTags_attrs]
  rcases List.mem_append.mp h with h | h
  · obtain ⟨p, hp, a0, hf, he⟩ := mem_existingOf h
    obtain ⟨ha0, hk0, hw0⟩ := findByKV_some hf
    subst he
    exact ⟨⟨p, hp, rfl, rfl⟩, a0, List.mem_append.mpr (Or.inl ha0), rfl, hk0, hw0⟩
  · obtain ⟨_, p, hp, hkv⟩ := assignIds_mem h
    have hpS : p ∈ S := List.mem_of_mem_filter hp
    exact ⟨⟨p, hpS, hkv⟩, e, List.mem_append.mpr (Or.inr h), rfl, rfl, rfl⟩

/-- Case split on the origin of a createTags response record. -/
theorem createTags_resp_elim {S : List KV} {db : TagDB} {e : Tag}
    (h : e ∈ (createTags S db).2.1) :
    (∃ p ∈ S, ∃ a0 : Tag, findByKV db.attrs p.key p.value = some a0
      ∧ e = ⟨a0.id, p.key, p.value⟩) ∨
    e ∈ assignIds db.nextId (newKVsOf S db) := by
  rw [createTags_resp] at h
  rcases List.mem_append.mp h with h | h
  · exact Or.inl (mem_existingOf h)
  · exact Or.inr h

/-! ## Helper lemmas for idempotence (C5): associateTags -/

theorem associateTags_db_attrs {S : List KV} (v u : String) (db : TagDB)
    (h : S.isEmpty = false) :
    (associateTags v S u db).1.attrs = (createTags S db).1.attrs := by
  unfold associateTags
  rw [h]
  by_cases hj : (newJoinsOf v (createTags S db).2.1 (createTags S db).1).isEmpty <;> simp [hj]

theorem associateTags_db_nextId {S : List KV} (v u : String) (db : TagDB)
    (h : S.isEmpty = false) :
    (associateTags v S u db).1.nextId = (createTags S db).1.nextId := by
  unfold associateTags
  rw [h]
  by_cases hj : (newJoinsOf v (createTags S db).2.1 (createTags S db).1).isEmpty <;> simp [hj]

theorem associateTags_db_assocs {S : List KV} (v u : String) (db : TagDB)
    (h : S.isEmpty = false) :
    (associateTags v S u db).1.assocs = (createTags S db).1.assocs ++
      (newJoinsOf v (createTags S db).2.1 (createTags S db).1).map
        (fun e => (⟨v, e.id, u⟩ : VersionTag)) := by
  unfold associateTags
  rw [h]
  by_cases hj : (newJoinsOf v (createTags S db).2.1 (createTags S db).1).isEmpty
  · rw [List.isEmpty_iff] at hj
    simp [hj]
  · simp [hj]

/-- Every createTags response record ends up joined to the version. -/
theorem associateTags_join_covers {S : List KV} (v u : String) (db : TagDB)
    (h : S.isEmpty = false) {e : Tag} (he : e ∈ (createTags S db).2.1) :
    ∃ j ∈ (associateTags v S u db).1.assocs, j.versionId = v ∧ j.tagId = e.id := by
  rw [associateTags_db_assocs v u db h]
  by_cases ha : (associatedOf v (createTags S db).1).any (fun j => j.tagId == e.id) = true
  · obtain ⟨j, hj, hjt⟩ := List.any_eq_true.mp ha
    have hj' := List.mem_filter.mp hj
    refine ⟨j, List.mem_append.mpr (Or.inl ?_), ?_, ?_⟩
    · rw [createTags_assocs]
      rw [createTags_assocs] at hj'
      exact hj'.1
    · exact beq_iff_eq.mp hj'.2
    · exact beq_iff_eq.mp hjt
  · have hnj : e ∈ newJoinsOf v (createTags S db).2.1 (createTags S db).1 := by
      unfold newJoinsOf
      refine List.mem_filter.mpr ⟨he, ?_⟩
      have ha' : (associatedOf v (createTags S db).1).any (fun j => j.tagId == e.id) = false := by
        simpa using ha
      simp [ha']
    exact ⟨⟨v, e.id, u⟩, List.mem_append.mpr (Or.inr (List.mem_map_of_mem _ hnj)), rfl, rfl⟩

/-- Completeness of the association stage: after associateTags every input
pair is carried by a stored record joined to the version. -/
theorem associateTags_complete {S : List KV} (v u : String) (db : TagDB)
    (h : S.isEmpty = false) {p : KV} (hp : p ∈ S) :
    ∃ a ∈ (associateTags v S u db).1.attrs, a.key = p.key ∧ a.value = p.value ∧
      ∃ j ∈ (associateTags v S u db).1.assocs, j.versionId = v ∧ j.tagId = a.id := by
  obtain ⟨e, he, hek, hev⟩ := createTags_resp_complete db hp
  obtain ⟨_, a, ha, haid, hak, hav⟩ := createTags_resp_attr he
  obtain ⟨j, hj, hjv, hjt⟩ := associateTags_join_covers v u db h he
  refine ⟨a, ?_, hak.trans hek, hav.trans hev, j, hj, hjv, by rw [hjt, haid]⟩
  rw [associateTags_db_attrs v u db h]
  exact ha

/-! ## Helper lemmas for idempotence (C5): dissociation stage -/

theorem delStep_attrs (v : String) (t : KV) (db : TagDB) :
    (delStep v t db).1.attrs = db.attrs := rfl

theorem delStep_nextId (v : String) (t : KV) (db : TagDB) :
    (delStep v t db).1.nextId = db.nextId := rfl

theorem dissocLoop_attrs (v : String) (ts : List KV) (db : TagDB) :
    (dissocLoop v ts db).1.attrs = db.attrs := by
  induction ts generalizing db with
  | nil => rfl
  | cons t ts ih => simp [dissocLoop, ih, delStep]

theorem dissocLoop_nextId (v : String) (ts : List KV) (db : TagDB) :
    (dissocLoop v ts db).1.nextId = db.nextId := by
  induction ts generalizing db with
  | nil => rfl
  | cons t ts ih => simp [dissocLoop, ih, delStep]

/-- A join row surviving the delete loop was present initially and fails
every delete condition of the loop. -/
theorem dissocLoop_mem (v : String) (ts : List KV) (db : TagDB) {j : VersionTag}
    (h : j ∈ (dissocLoop v ts db).1.assocs) :
    j ∈ db.assocs ∧ ∀ t ∈ ts, delPred db.attrs v t j = false := by
  induction ts generalizing db with
  | nil =>
    exact ⟨h, by simp⟩
  | cons t ts ih =>
    have h' : j ∈ (dissocLoop v ts (delStep v t db).1).1.assocs := h
    obtain ⟨hmem, hrest⟩ := ih (delStep v t db).1 h'
    have hmem' := List.mem_filter.mp hmem
    refine ⟨hmem'.1, ?_⟩
    intro t' ht'
    rcases List.mem_cons.mp ht' with ht' | ht'
    · subst ht'
      have := hmem'.2
      simp only [Bool.not_eq_true'] at this
      exact this
    · have := hrest t' ht'
      rw [delStep_attrs] at this
      exact this

theorem pruneOrphanedTags_assocs (db : TagDB) :
    (pruneOrphanedTags db).1.assocs = db.assocs := rfl

theorem pruneOrphanedTags_nextId (db : TagDB) :
    (pruneOrphanedTags db).1.nextId = db.nextId := rfl

theorem pruneOrphanedTags_attrs_sublist (db : TagDB) :
    (pruneOrphanedTags db).1.attrs.Sublist db.attrs :=
  List.filter_sublist _

theorem dissociateTags_assocs (v : String) (ts : List KV) (db : TagDB) :
    (dissociateTags v ts db).1.assocs = (dissocLoop v ts db).1.assocs := rfl

theorem dissociateTags_attrs_sublist (v : String) (ts : List KV) (db : TagDB) :
    (dissociateTags v ts db).1.attrs.Sublist db.attrs := by
  have h1 := pruneOrphanedTags_attrs_sublist (dissocLoop v ts db).1
  rw [dissocLoop_attrs] at h1
  exact h1

theorem dissociateTags_nextId (v : String) (ts : List KV) (db : TagDB) :
    (dissociateTags v ts db).1.nextId = db.nextId := by
  have := dissocLoop_nextId v ts db
  unfold dissociateTags
  simpa [pruneOrphanedTags_nextId] using this

/-! ## Helper lemmas for idempotence (C5): the rtDissoc stage -/

theorem rtDissoc_attrs_sublist (v : String) (S : List KV) (db : TagDB) :
    (rtDissoc v S db).1.attrs.Sublist db.attrs := by
  unfold rtDissoc
  by_cases h : (dissocSet v S db).isEmpty
  · simp [h]
  · simp only [h, Bool.false_eq_true, if_false]
    exact dissociateTags_attrs_sublist _ _ _

theorem rtDissoc_nextId (v : String) (S : List KV) (db : TagDB) :
    (rtDissoc v S db).1.nextId = db.nextId := by
  unfold rtDissoc
  by_cases h : (dissocSet v S db).isEmpty
  · simp [h]
  · simp only [h, Bool.false_eq_true, if_false]
    exact dissociateTags_nextId _ _ _

theorem rtDissoc_assocs_sub (v : String) (S : List KV) (db : TagDB) {j : VersionTag}
    (h : j ∈ (rtDissoc v S db).1.assocs) : j ∈ db.assocs := by
  unfold rtDissoc at h
  by_cases hd : (dissocSet v S db).isEmpty
  · simpa [hd] using h
  · simp only [hd, Bool.false_eq_true, if_false] at h
    rw [dissociateTags_assocs] at h
    exact (dissocLoop_mem v _ db h).1

/-- isSome of findKVin from a matching member. -/
theorem findKVin_isSome_of_mem {S : List KV} {k w : String} {p : KV}
    (hp : p ∈ S) (hk : p.key = k) (hw : p.value = w) :
    (findKVin S k w).isSome = true := by
  unfold findKVin
  exact List.find?_isSome.mpr ⟨p, hp, by simp [hk, hw]⟩

/-- Precision of the dissociation stage of replaceTags: any store row that
remains joined to the version after the stage carries a pair of the
incoming set. -/
theorem rtDissoc_precision (v : String) (S : List KV) (db : TagDB) {a : Tag}
    (ha : a ∈ (rtDissoc v S db).1.attrs) {j : VersionTag}
    (hj : j ∈ (rtDissoc v S db).1.assocs) (hjv : j.versionId = v)
    (hjt : j.tagId = a.id) :
    (findKVin S a.key a.value).isSome = true := by
  by_cases hd : (dissocSet v S db).isEmpty
  · have ha' : a ∈ db.attrs := (rtDissoc_attrs_sublist v S db).mem ha
    have hj' : j ∈ db.assocs := rtDissoc_assocs_sub v S db hj
    have hcur : a ∈ currentTags v db := by
      unfold currentTags
      refine List.mem_filter.mpr ⟨ha', List.any_eq_true.mpr ⟨j, hj', ?_⟩⟩
      simp [hjt, hjv]
    rw [List.isEmpty_iff] at hd
    have := List.filter_eq_nil_iff.mp hd a hcur
    rcases hopt : findKVin S a.key a.value with _ | p
    · rw [hopt] at this
      simp at this
    · simp
  · unfold rtDissoc at ha hj
    simp only [hd, Bool.false_eq_true, if_false] at ha hj
    have ha' : a ∈ db.attrs := (dissociateTags_attrs_sublist v _ db).mem ha
    rw [dissociateTags_assocs] at hj
    obtain ⟨hj', hfail⟩ := dissocLoop_mem v _ db hj
    by_contra hns
    have hnone : findKVin S a.key a.value = none := by
      rcases hopt : findKVin S a.key a.value with _ | p
      · rfl
      · rw [hopt] at hns
        simp at hns
    have hcur : a ∈ currentTags v db := by
      unfold currentTags
      refine List.mem_filter.mpr ⟨ha', List.any_eq_true.mpr ⟨j, hj', ?_⟩⟩
      simp [hjt, hjv]
    have hdis : a ∈ dissocSet v S db := by
      unfold dissocSet
      exact List.mem_filter.mpr ⟨hcur, by simp [hnone]⟩
    have ht : (⟨a.key, a.value⟩ : KV) ∈ (dissocSet v S db).map
        (fun a => (⟨a.key, a.value⟩ : KV)) :=
      List.mem_map_of_mem _ hdis
    have := hfail _ ht
    unfold delPred at this
    rw [hjv] at this
    simp only [beq_self_eq_true, Bool.true_and] at this
    have hwit : db.attrs.any (fun b => b.id == j.tagId && b.key == a.key
        && (a.value == "" || b.value == a.value)) = true := by
      refine List.any_eq_true.mpr ⟨a, ha', ?_⟩
      simp [hjt]
    rw [hwit] at this
    cases this

/-! ## Helper lemmas for idempotence (C5): invariants and precision -/

/-- A genuinely new pair matches no row of the scanned table. -/
theorem newKVsOf_not_in {S : List KV} {db : TagDB} {t : KV} (ht : t ∈ newKVsOf S db) :
    ∀ a ∈ db.attrs, ¬(a.key = t.key ∧ a.value = t.value) := by
  have ht' := List.mem_filter.mp ht
  have hn : findByKV db.attrs t.key t.value = none := by
    rcases hopt : findByKV db.attrs t.key t.value with _ | a
    · rfl
    · rw [hopt] at ht'
      simp at ht'
  intro a ha hcontr
  have := List.find?_eq_none.mp hn a ha
  simp only [Bool.and_eq_true, beq_iff_eq] at this
  exact this hcontr

/-- createTags preserves distinctness of (key, value) pairs when the input
set is itself duplicate-free. -/
theorem createTags_kv_nodup {S : List KV} {db : TagDB}
    (hkv : (db.attrs.map (fun a => (a.key, a.value))).Nodup)
    (hS : (S.map (fun p => (p.key, p.value))).Nodup) :
    ((createTags S db).1.attrs.map (fun a => (a.key, a.value))).Nodup := by
  rw [createTags_attrs, List.map_append, List.nodup_append]
  refine ⟨hkv, ?_, ?_⟩
  · rw [assignIds_pairs]
    have hsub : ((newKVsOf S db).map (fun p => (p.key, p.value))).Sublist
        (S.map (fun p => (p.key, p.value))) :=
      (List.filter_sublist S).map _
    exact List.Nodup.sublist hsub hS
  · intro x hx1 hx2
    rw [assignIds_pairs] at hx2
    obtain ⟨a, ha, hax⟩ := List.mem_map.mp hx1
    obtain ⟨t, ht, htx⟩ := List.mem_map.mp hx2
    have hpair : a.key = t.key ∧ a.value = t.value := by
      have := hax.trans htx.symm
      exact ⟨congrArg Prod.fst this, congrArg Prod.snd this⟩
    exact newKVsOf_not_in ht a ha hpair

/-- Precision of the association stage: if every row joined to the version
before associateTags carries an incoming pair, the same holds afterwards. -/
theorem associateTags_precision {S : List KV} (v u : String) (dbA : TagDB)
    (h : S.isEmpty = false)
    (hid : (dbA.attrs.map Tag.id).Nodup)
    (hfr : ∀ a ∈ dbA.attrs, a.id < dbA.nextId)
    (hpre : ∀ a ∈ dbA.attrs, ∀ j ∈ dbA.assocs, j.versionId = v → j.tagId = a.id →
        (findKVin S a.key a.value).isSome = true) :
    ∀ a ∈ (associateTags v S u dbA).1.attrs, ∀ j ∈ (associateTags v S u dbA).1.assocs,
      j.versionId = v → j.tagId = a.id → (findKVin S a.key a.value).isSome = true := by
  intro a ha j hj hjv hjt
  rw [associateTags_db_attrs v u dbA h, createTags_attrs] at ha
  rw [associateTags_db_assocs v u dbA h] at hj
  rcases List.mem_append.mp ha with haL | haR
  · rcases List.mem_append.mp hj with hjL | hjR
    · rw [createTags_assocs] at hjL
      exact hpre a haL j hjL hjv hjt
    · obtain ⟨e, he, hje⟩ := List.mem_map.mp hjR
      have he' : e ∈ (createTags S dbA).2.1 := List.mem_of_mem_filter he
      have hjid : j.tagId = e.id := by
        rw [← hje]
      rcases createTags_resp_elim he' with ⟨p, hp, a0, hf, hea⟩ | hnew
      · obtain ⟨ha0, hk0, hw0⟩ := findByKV_some hf
        have heid : e.id = a0.id := by
          rw [hea]
        have haa0 : a = a0 := by
          refine List.inj_on_of_nodup_map hid haL ha0 ?_
          rw [← hjt, hjid, heid]
        refine findKVin_isSome_of_mem hp ?_ ?_
        · rw [haa0, hk0]
        · rw [haa0, hw0]
      · obtain ⟨hge, _⟩ := assignIds_mem hnew
        have hlt := hfr a haL
        rw [← hjt, hjid] at hlt
        omega
  · obtain ⟨_, p, hp, hk, hw⟩ := assignIds_mem haR
    exact findKVin_isSome_of_mem (List.mem_of_mem_filter hp) hk.symm hw.symm

/-- Unfolding replaceTags on a non-empty incoming list. -/
theorem replaceTags_eq {S : List KV} (hne : S.isEmpty = false) (v u : String) (db : TagDB) :
    replaceTags v (some S) u db =
      ((associateTags v S u (rtDissoc v S db).1).1,
       (associateTags v S u (rtDissoc v S db).1).2.1,
       (rtDissoc v S db).2 ++ (associateTags v S u (rtDissoc v S db).1).2.2) := by
  simp [replaceTags, hne]

/-- When nothing is to dissociate, nothing is new and nothing is to join,
replaceTags is an exact no-op with an empty event trace. -/
theorem replaceTags_noop (v u : String) {S : List KV} (db1 : TagDB)
    (hne : S.isEmpty = false)
    (hA : dissocSet v S db1 = [])
    (hB : newKVsOf S db1 = [])
    (hC : newJoinsOf v (existingOf S db1) db1 = []) :
    replaceTags v (some S) u db1 = (db1, existingOf S db1, []) := by
  have hrt : rtDissoc v S db1 = (db1, []) := by
    simp [rtDissoc, hA]
  have hct : createTags S db1 = (db1, existingOf S db1, []) := by
    unfold createTags
    rw [hB]
    simp [assignIds]
  have hat : associateTags v S u db1 = (db1, existingOf S db1, []) := by
    unfold associateTags
    rw [hne]
    simp only [Bool.false_eq_true, if_false, hct]
    simp [hC]
  rw [replaceTags_eq hne, hrt]
  simp [hat]

/-! ## Claim theorem C5 -/

/-- C5. replaceTags is idempotent: running it twice with the same non-empty,
duplicate-free incoming set (on a well-formed store: distinct ids, distinct
pairs, ids below the sequence bound) leaves the store of the first run
exactly unchanged — the second run performs zero record inserts, zero join
inserts and zero deletes (its event trace is empty) — and the set of
records associated with the version is the same after each call. -/
theorem c5_replaceTags_idempotent (v u : String) (S : List KV) (db : TagDB)
    (hS : S.isEmpty = false)
    (hSd : (S.map (fun p => (p.key, p.value))).Nodup)
    (hid : (db.attrs.map Tag.id).Nodup)
    (hkv : (db.attrs.map (fun a => (a.key, a.value))).Nodup)
    (hfr : ∀ a ∈ db.attrs, a.id < db.nextId) :
    (replaceTags v (some S) u (replaceTags v (some S) u db).1).1
      = (replaceTags v (some S) u db).1 ∧
    (replaceTags v (some S) u (replaceTags v (some S) u db).1).2.2 = ([] : List TagEv) ∧
    currentTags v (replaceTags v (some S) u (replaceTags v (some S) u db).1).1
      = currentTags v (replaceTags v (some S) u db).1 := by
  have hr1 : (replaceTags v (some S) u db).1
      = (associateTags v S u (rtDissoc v S db).1).1 := by
    rw [replaceTags_eq hS]
  have hsubA : (rtDissoc v S db).1.attrs.Sublist db.attrs := rtDissoc_attrs_sublist v S db
  have hidA : ((rtDissoc v S db).1.attrs.map Tag.id).Nodup :=
    List.Nodup.sublist (hsubA.map _) hid
  have hkvA : ((rtDissoc v S db).1.attrs.map (fun a => (a.key, a.value))).Nodup :=
    List.Nodup.sublist (hsubA.map _) hkv
  have hfrA : ∀ a ∈ (rtDissoc v S db).1.attrs, a.id < (rtDissoc v S db).1.nextId := by
    intro a ha
    rw [rtDissoc_nextId]
    exact hfr a (hsubA.mem ha)
  have hpreA : ∀ a ∈ (rtDissoc v S db).1.attrs, ∀ j ∈ (rtDissoc v S db).1.assocs,
      j.versionId = v → j.tagId = a.id →
      (findKVin S a.key a.value).isSome = true :=
    fun a ha j hj hjv hjt => rtDissoc_precision v S db ha hj hjv hjt
  have hP2 := associateTags_precision v u (rtDissoc v S db).1 hS hidA hfrA hpreA
  have hP1 : ∀ p ∈ S, ∃ a ∈ (associateTags v S u (rtDissoc v S db).1).1.attrs,
      a.key = p.key ∧ a.value = p.value ∧
      ∃ j ∈ (associateTags v S u (rtDissoc v S db).1).1.assocs,
        j.versionId = v ∧ j.tagId = a.id :=
    fun p hp => associateTags_complete v u (rtDissoc v S db).1 hS hp
  have hkv1 : ((associateTags v S u (rtDissoc v S db).1).1.attrs.map
      (fun a => (a.key, a.value))).Nodup := by
    rw [associateTags_db_attrs v u _ hS]
    exact createTags_kv_nodup hkvA hSd
  have hA : dissocSet v S (associateTags v S u (rtDissoc v S db).1).1 = [] := by
    unfold dissocSet
    apply List.filter_eq_nil_iff.mpr
    intro a hcur
    unfold currentTags at hcur
    have hcur' := List.mem_filter.mp hcur
    obtain ⟨j, hj, hpred⟩ := List.any_eq_true.mp hcur'.2
    simp only [Bool.and_eq_true, beq_iff_eq] at hpred
    have hsome := hP2 a hcur'.1 j hj hpred.2 hpred.1
    intro hnone
    rw [Option.isNone_iff_eq_none] at hnone
    rw [hnone] at hsome
    simp at hsome
  have hB : newKVsOf S (associateTags v S u (rtDissoc v S db).1).1 = [] := by
    unfold newKVsOf
    apply List.filter_eq_nil_iff.mpr
    intro p hp
    obtain ⟨a, ha, hak, hav, _⟩ := hP1 p hp
    intro hnone
    rw [Option.isNone_iff_eq_none] at hnone
    unfold findByKV at hnone
    have := List.find?_eq_none.mp hnone a ha
    apply this
    simp [hak, hav]
  have hC : newJoinsOf v (existingOf S (associateTags v S u (rtDissoc v S db).1).1)
      (associateTags v S u (rtDissoc v S db).1).1 = [] := by
    unfold newJoinsOf
    apply List.filter_eq_nil_iff.mpr
    intro e he
    obtain ⟨p, hp, a0, hf, hea⟩ := mem_existingOf he
    obtain ⟨ha0, hk0, hw0⟩ := findByKV_some hf
    obtain ⟨a, ha, hak, hav, j, hj, hjv, hjt⟩ := hP1 p hp
    have haa0 : a = a0 :=
      List.inj_on_of_nodup_map hkv1 ha ha0 (by rw [hak, hav, hk0, hw0])
    have hany : (associatedOf v (associateTags v S u (rtDissoc v S db).1).1).any
        (fun jj => jj.tagId == e.id) = true := by
      refine List.any_eq_true.mpr ⟨j, ?_, ?_⟩
      · exact List.mem_filter.mpr ⟨hj, by simp [hjv]⟩
      · have heid : e.id = a0.id := by rw [hea]
        rw [beq_iff_eq, hjt, haa0, heid]
    simp [hany]
  have hnoop := replaceTags_noop v u (associateTags v S u (rtDissoc v S db).1).1
    hS hA hB hC
  refine ⟨?_, ?_, ?_⟩
  · rw [hr1, hnoop]
  · rw [hr1, hnoop]
  · rw [hr1, hnoop]

/-- Witness for C5: the set containing (a,1) replaced twice onto version v
of the empty store. -/
theorem c5_witness :
    (([(⟨"a", "1"⟩ : KV)].isEmpty = false) ∧
      (([(⟨"a", "1"⟩ : KV)].map (fun p => (p.key, p.value))).Nodup) ∧
      (((⟨[], [], 0⟩ : TagDB).attrs.map Tag.id).Nodup) ∧
      (((⟨[], [], 0⟩ : TagDB).attrs.map (fun a => (a.key, a.value))).Nodup) ∧
      (∀ a ∈ (⟨[], [], 0⟩ : TagDB).attrs, a.id < (⟨[], [], 0⟩ : TagDB).nextId)) ∧
    ((replaceTags "v" (some [⟨"a", "1"⟩]) "u"
        (replaceTags "v" (some [⟨"a", "1"⟩]) "u" (⟨[], [], 0⟩ : TagDB)).1).1
      = (replaceTags "v" (some [⟨"a", "1"⟩]) "u" (⟨[], [], 0⟩ : TagDB)).1 ∧
     (replaceTags "v" (some [⟨"a", "1"⟩]) "u"
        (replaceTags "v" (some [⟨"a", "1"⟩]) "u" (⟨[], [], 0⟩ : TagDB)).1).2.2
      = ([] : List TagEv) ∧
     currentTags "v" (replaceTags "v" (some [⟨"a", "1"⟩]) "u"
        (replaceTags "v" (some [⟨"a", "1"⟩]) "u" (⟨[], [], 0⟩ : TagDB)).1).1
      = currentTags "v" (replaceTags "v" (some [⟨"a", "1"⟩]) "u" (⟨[], [], 0⟩ : TagDB)).1) :=
  ⟨⟨by decide, by decide, by decide, by decide, by decide⟩,
   c5_replaceTags_idempotent "v" "u" [⟨"a", "1"⟩] (⟨[], [], 0⟩ : TagDB)
     (by decide) (by decide) (by decide) (by decide) (by decide)⟩

end Coms
